import Mathlib

/-!
Shallow embedding of the Snake game from `src/main.rs`.

Conventions of the embedding:
* grid coordinates (`i32`) become `Int`;
* the `f64` timers (`waiting_time`, `total_time`, `delta_time`) become `ℚ`,
  with the constants `MOVING_PERIOD = 1/10` and `RESTART_TIME = 1`;
* the snake body, a `LinkedList<Block>` with the head at the front, becomes a
  `List Block` with the head first;
* code that can panic (`Option::unwrap` in `head_position` and
  `restore_tail`) returns `Option`, `none` standing for the panic;
* the random sampling in `add_food` (`rng.gen_range`) is modelled by an
  explicit list of draws: each element of `samples` is one `(x, y)` pair the
  generator would produce, and `none` stands for the rejection loop never
  finding an acceptable cell (nontermination).
-/

namespace RsSnake

/-- `MOVING_PERIOD: f64 = 0.1` from the source. -/
def MOVING_PERIOD : ℚ := 1 / 10

/-- `RESTART_TIME: f64 = 1.0` from the source. -/
def RESTART_TIME : ℚ := 1

/-- `enum Direction { Up, Down, Left, Right }`. -/
inductive Direction where
  | Up
  | Down
  | Left
  | Right
deriving DecidableEq, Repr

/-- `Direction::opposite`. -/
def Direction.opposite : Direction → Direction
  | Direction.Up => Direction.Down
  | Direction.Down => Direction.Up
  | Direction.Left => Direction.Right
  | Direction.Right => Direction.Left

/-- `struct Block { x: i32, y: i32 }`. -/
structure Block where
  x : Int
  y : Int
deriving DecidableEq, Repr

/-- `struct Snake { direction, body, tail }`. -/
structure Snake where
  direction : Direction
  body : List Block
  tail : Option Block
deriving DecidableEq, Repr

/-- `LinkedList::pop_back`: the removed last element together with the rest
of the list, `none` on an empty list. -/
def popBack (l : List Block) : Option (Block × List Block) :=
  match l.getLast? with
  | none => none
  | some b => some (b, l.dropLast)

/-- `Snake::new(x, y)`: a one-segment body heading `Right`, no cached tail. -/
def Snake.new (x y : Int) : Snake :=
  { direction := Direction.Right, body := [Block.mk x y], tail := none }

/-- `Snake::head_position`: the front block's coordinates; the source unwraps,
so the empty-body panic is `none`. -/
def Snake.head_position (s : Snake) : Option (Int × Int) :=
  match s.body with
  | [] => none
  | head :: _ => some (head.x, head.y)

/-- `Snake::move_forward(dir?)`: optionally update the direction, push the new
head block, pop the back and cache it in `tail`. -/
def Snake.move_forward (s : Snake) (dir : Option Direction) : Option Snake :=
  let d := dir.getD s.direction
  match s.head_position with
  | none => none
  | some (last_x, last_y) =>
    let new_block : Block :=
      match d with
      | Direction.Up => Block.mk last_x (last_y - 1)
      | Direction.Down => Block.mk last_x (last_y + 1)
      | Direction.Left => Block.mk (last_x - 1) last_y
      | Direction.Right => Block.mk (last_x + 1) last_y
    match popBack (new_block :: s.body) with
    | none => none
    | some (tl, body2) => some { direction := d, body := body2, tail := some tl }

/-- `Snake::head_direction`. -/
def Snake.head_direction (s : Snake) : Direction :=
  s.direction

/-- `Snake::next_head(dir?)`: pure lookahead of the next head coordinates. -/
def Snake.next_head (s : Snake) (dir : Option Direction) : Option (Int × Int) :=
  match s.head_position with
  | none => none
  | some (head_x, head_y) =>
    let moving_dir := dir.getD s.direction
    match moving_dir with
    | Direction.Up => some (head_x, head_y - 1)
    | Direction.Down => some (head_x, head_y + 1)
    | Direction.Left => some (head_x - 1, head_y)
    | Direction.Right => some (head_x + 1, head_y)

/-- `Snake::restore_tail`: re-append the cached popped tail; the source unwraps
`self.tail`, so a missing cache is `none`. -/
def Snake.restore_tail (s : Snake) : Option Snake :=
  match s.tail with
  | none => none
  | some blk => some { s with body := s.body ++ [blk] }

/-- The loop body of `Snake::overlap_tail`: `n` is `self.body.len()`, `ch` the
running counter; a block is tested for a match first, then the counter is
bumped and the loop breaks once `ch == n - 1`. -/
def overlapAux (x y : Int) (n : Nat) : List Block → Nat → Bool
  | [], _ => false
  | block :: rest, ch =>
    if x = block.x ∧ y = block.y then true
    else if ch + 1 = n - 1 then false
    else overlapAux x y n rest (ch + 1)

/-- `Snake::overlap_tail(x, y)`. -/
def Snake.overlap_tail (s : Snake) (x y : Int) : Bool :=
  overlapAux x y s.body.length s.body 0

/-- The subset of `piston_window::Key` the game reads: the four arrow keys;
`Other` stands for every other key (mapped to no direction). -/
inductive Key where
  | Up
  | Down
  | Left
  | Right
  | Other
deriving DecidableEq, Repr

/-- The `match key` table at the top of `Game::key_pressed`. -/
def keyDirection : Key → Option Direction
  | Key.Up => some Direction.Up
  | Key.Down => some Direction.Down
  | Key.Left => some Direction.Left
  | Key.Right => some Direction.Right
  | Key.Other => none

/-- `struct Game`. -/
structure Game where
  snake : Snake
  food_exists : Bool
  food_x : Int
  food_y : Int
  width : Int
  height : Int
  game_over : Bool
  waiting_time : ℚ
  total_time : ℚ
deriving DecidableEq, Repr

/-- `Game::new(width, height)`. -/
def Game.new (width height : Int) : Game :=
  { snake := Snake.new 2 2
    food_exists := true
    food_x := 6
    food_y := 4
    width := width
    height := height
    game_over := false
    waiting_time := 0
    total_time := 0 }

/-- `Game::restart`. -/
def Game.restart (g : Game) : Game :=
  { g with
    snake := Snake.new 2 2
    food_exists := true
    food_x := 6
    food_y := 4
    game_over := false
    waiting_time := 0
    total_time := 0 }

/-- `Game::check_if_snake_alive(dir?)`: the next head must not overlap the body
(via `overlap_tail`) and must lie strictly inside the 1-cell border. -/
def Game.check_if_snake_alive (g : Game) (dir : Option Direction) : Option Bool :=
  match g.snake.next_head dir with
  | none => none
  | some (next_x, next_y) =>
    if g.snake.overlap_tail next_x next_y then some false
    else some (decide (next_x > 0) && decide (next_y > 0) &&
               decide (next_x < g.width - 1) && decide (next_y < g.height - 1))

/-- `Game::check_eating`: if the head is on existing food, clear the food flag
and restore the cached tail. -/
def Game.check_eating (g : Game) : Option Game :=
  match g.snake.head_position with
  | none => none
  | some (head_x, head_y) =>
    if g.food_exists = true ∧ g.food_x = head_x ∧ g.food_y = head_y then
      match g.snake.restore_tail with
      | none => none
      | some s => some { g with food_exists := false, snake := s }
    else some g

/-- `Game::add_food`: take the first drawn cell that `overlap_tail` does not
reject; `samples` models the successive `gen_range` draws. -/
def Game.add_food (g : Game) (samples : List (Int × Int)) : Option Game :=
  match samples.find? (fun p => ! g.snake.overlap_tail p.1 p.2) with
  | none => none
  | some (new_x, new_y) =>
    some { g with food_x := new_x, food_y := new_y, food_exists := true }

/-- `Game::update_snake(dir?)`: move and check eating when alive, otherwise set
`game_over`; either way reset `waiting_time` to 0. -/
def Game.update_snake (g : Game) (dir : Option Direction) : Option Game :=
  match g.check_if_snake_alive dir with
  | none => none
  | some true =>
    match g.snake.move_forward dir with
    | none => none
    | some s =>
      match Game.check_eating { g with snake := s } with
      | none => none
      | some g1 => some { g1 with waiting_time := 0 }
  | some false => some { g with game_over := true, waiting_time := 0 }

/-- `Game::key_pressed(key)`: ignore input when the game is over, drop an
arrow key opposite to the heading, otherwise forward to `update_snake`. -/
def Game.key_pressed (g : Game) (key : Key) : Option Game :=
  if g.game_over then some g
  else
    let dir := keyDirection key
    match dir with
    | some d =>
      if d = g.snake.head_direction.opposite then some g
      else g.update_snake dir
    | none => g.update_snake dir

/-- `Game::update(delta_time)`: accumulate the timers, then restart, spawn
food or advance the snake as gated by the thresholds. -/
def Game.update (g : Game) (delta_time : ℚ) (samples : List (Int × Int)) : Option Game :=
  let g1 := { g with
    waiting_time := g.waiting_time + delta_time
    total_time := g.total_time + delta_time }
  if g1.game_over then
    if g1.waiting_time > RESTART_TIME then some g1.restart else some g1
  else
    match (if !g1.food_exists then g1.add_food samples else some g1) with
    | none => none
    | some g2 =>
      if g2.waiting_time > MOVING_PERIOD then g2.update_snake none else some g2

/-! ### Helper lemmas -/

/-- What the `overlap_tail` loop scans: every block of `l` while the counter
stays below the break point `n - 1`, the whole of `l` when the break point is
never reached. -/
theorem overlapAux_eq_true_iff (x y : Int) (l : List Block) : ∀ n ch : Nat,
    overlapAux x y n l ch = true ↔
      ∃ b ∈ l.take (if ch < n - 1 then n - 1 - ch else l.length),
        b.x = x ∧ b.y = y := by
  induction l with
  | nil =>
    intro n ch
    simp [overlapAux]
  | cons b rest ih =>
    intro n ch
    by_cases hb : x = b.x ∧ y = b.y
    · have h1 : overlapAux x y n (b :: rest) ch = true := by
        rw [overlapAux, if_pos hb]
      rw [h1]
      constructor
      · intro _
        refine ⟨b, ?_, hb.1.symm, hb.2.symm⟩
        obtain ⟨m, hm⟩ : ∃ m, (if ch < n - 1 then n - 1 - ch
            else (b :: rest).length) = m + 1 := by
          split
          · exact ⟨n - 1 - ch - 1, by omega⟩
          · exact ⟨rest.length, by simp⟩
        rw [hm, List.take_succ_cons]
        exact List.mem_cons_self b _
      · intro _
        rfl
    · rw [overlapAux, if_neg hb]
      by_cases hbr : ch + 1 = n - 1
      · rw [if_pos hbr]
        have hk : (if ch < n - 1 then n - 1 - ch else (b :: rest).length) = 1 := by
          rw [if_pos (by omega)]
          omega
        rw [hk]
        simp only [List.take_succ_cons, List.take_zero]
        constructor
        · intro h
          exact absurd h (by simp)
        · rintro ⟨b', hb', hbx, hby⟩
          simp only [List.mem_singleton] at hb'
          subst hb'
          exact absurd ⟨hbx.symm, hby.symm⟩ hb
      · rw [if_neg hbr, ih n (ch + 1)]
        by_cases hcn : ch < n - 1
        · have hcn1 : ch + 1 < n - 1 := by omega
          rw [if_pos hcn1, if_pos hcn]
          have hsplit : n - 1 - ch = (n - 1 - (ch + 1)) + 1 := by omega
          rw [hsplit, List.take_succ_cons]
          constructor
          · rintro ⟨b', hb', hp⟩
            exact ⟨b', List.mem_cons_of_mem b hb', hp⟩
          · rintro ⟨b', hb', hp⟩
            rcases List.mem_cons.mp hb' with hb' | hb'
            · subst hb'
              exact absurd ⟨hp.1.symm, hp.2.symm⟩ hb
            · exact ⟨b', hb', hp⟩
        · have hcn1 : ¬ ch + 1 < n - 1 := by omega
          rw [if_neg hcn1, if_neg hcn, List.take_length, List.length_cons,
            List.take_succ_cons, List.take_length]
          constructor
          · rintro ⟨b', hb', hp⟩
            exact ⟨b', List.mem_cons_of_mem b hb', hp⟩
          · rintro ⟨b', hb', hp⟩
            rcases List.mem_cons.mp hb' with hb' | hb'
            · subst hb'
              exact absurd ⟨hp.1.symm, hp.2.symm⟩ hb
            · exact ⟨b', hb', hp⟩

/-- Characterization of `overlap_tail`: for bodies of length at least 2 it
scans every segment but the last; a length-1 body is scanned whole. -/
theorem overlap_tail_char (s : Snake) (x y : Int) :
    s.overlap_tail x y = true ↔
      (∃ b ∈ s.body.dropLast, b.x = x ∧ b.y = y) ∨
        (s.body.length = 1 ∧ ∃ b ∈ s.body, b.x = x ∧ b.y = y) := by
  unfold Snake.overlap_tail
  rw [overlapAux_eq_true_iff]
  rcases hl : s.body with _ | ⟨b, _ | ⟨c, rest⟩⟩
  · simp
  · simp
  · have h2 : 0 < (b :: c :: rest).length - 1 := by
      simp
    rw [if_pos h2, Nat.sub_zero, ← List.dropLast_eq_take]
    have hne : (b :: c :: rest).length ≠ 1 := by
      simp
    constructor
    · intro h
      exact Or.inl h
    · rintro (h | ⟨h1, _⟩)
      · exact h
      · exact absurd h1 hne

/-- `popBack` on a nonempty list removes and returns the last element. -/
theorem popBack_cons (a : Block) (l : List Block) :
    popBack (a :: l) =
      some ((a :: l).getLast (List.cons_ne_nil a l), (a :: l).dropLast) := by
  unfold popBack
  rw [List.getLast?_eq_getLast_of_ne_nil (List.cons_ne_nil a l)]

/-- `move_forward` on a nonempty body succeeds, keeps the body length, and
puts the head exactly where `next_head` points. -/
theorem move_forward_some (s : Snake) (dir : Option Direction) (b : Block)
    (rest : List Block) (h : s.body = b :: rest) :
    ∃ s' : Snake, s.move_forward dir = some s' ∧
      s'.body.length = s.body.length ∧
      s'.body ≠ [] ∧
      s'.head_position = s.next_head dir := by
  have hhead : s.head_position = some (b.x, b.y) := by
    unfold Snake.head_position
    rw [h]
  cases hD : dir.getD s.direction with
  | Up =>
    refine ⟨⟨Direction.Up, Block.mk b.x (b.y - 1) :: (b :: rest).dropLast,
        some ((Block.mk b.x (b.y - 1) :: b :: rest).getLast
          (List.cons_ne_nil _ _))⟩, ?_, ?_, ?_, ?_⟩
    · simp only [Snake.move_forward, hhead, hD, h, popBack_cons, List.dropLast_cons₂]
    · simp [h]
    · simp
    · simp [Snake.head_position, Snake.next_head, hhead, hD, h]
  | Down =>
    refine ⟨⟨Direction.Down, Block.mk b.x (b.y + 1) :: (b :: rest).dropLast,
        some ((Block.mk b.x (b.y + 1) :: b :: rest).getLast
          (List.cons_ne_nil _ _))⟩, ?_, ?_, ?_, ?_⟩
    · simp only [Snake.move_forward, hhead, hD, h, popBack_cons, List.dropLast_cons₂]
    · simp [h]
    · simp
    · simp [Snake.head_position, Snake.next_head, hhead, hD, h]
  | Left =>
    refine ⟨⟨Direction.Left, Block.mk (b.x - 1) b.y :: (b :: rest).dropLast,
        some ((Block.mk (b.x - 1) b.y :: b :: rest).getLast
          (List.cons_ne_nil _ _))⟩, ?_, ?_, ?_, ?_⟩
    · simp only [Snake.move_forward, hhead, hD, h, popBack_cons, List.dropLast_cons₂]
    · simp [h]
    · simp
    · simp [Snake.head_position, Snake.next_head, hhead, hD, h]
  | Right =>
    refine ⟨⟨Direction.Right, Block.mk (b.x + 1) b.y :: (b :: rest).dropLast,
        some ((Block.mk (b.x + 1) b.y :: b :: rest).getLast
          (List.cons_ne_nil _ _))⟩, ?_, ?_, ?_, ?_⟩
    · simp only [Snake.move_forward, hhead, hD, h, popBack_cons, List.dropLast_cons₂]
    · simp [h]
    · simp
    · simp [Snake.head_position, Snake.next_head, hhead, hD, h]

/-- `check_eating` never moves the head and never touches `game_over` or
`waiting_time`. -/
theorem check_eating_preserves (g g' : Game) (h : g.check_eating = some g') :
    g'.snake.head_position = g.snake.head_position ∧
      g'.game_over = g.game_over ∧ g'.waiting_time = g.waiting_time := by
  unfold Game.check_eating at h
  split at h
  · exact absurd h (by simp)
  next hx hy hh =>
    split at h
    · split at h
      · exact absurd h (by simp)
      next s1 ht =>
        cases h
        unfold Snake.restore_tail at ht
        split at ht
        · cases ht
        next t htl =>
          cases ht
          refine ⟨?_, rfl, rfl⟩
          unfold Snake.head_position at hh ⊢
          cases hb : g.snake.body with
          | nil =>
            rw [hb] at hh
            cases hh
          | cons b0 tl0 =>
            rw [hb] at hh
            simp [hb]
    · cases h
      exact ⟨rfl, rfl, rfl⟩

/-- The fields `add_food` writes when it succeeds. -/
theorem add_food_fields (g g' : Game) (samples : List (Int × Int))
    (h : g.add_food samples = some g') :
    g'.food_exists = true ∧ g'.waiting_time = g.waiting_time ∧
      g'.snake = g.snake := by
  unfold Game.add_food at h
  cases hf : samples.find? (fun p => ! g.snake.overlap_tail p.1 p.2) with
  | none =>
    rw [hf] at h
    cases h
  | some p =>
    obtain ⟨nx, ny⟩ := p
    rw [hf] at h
    cases h
    exact ⟨rfl, rfl, rfl⟩

/-! ### The claims -/

/-- C1 (counterexample): for the length-1 snake of `Snake::new(2, 2)`,
`overlap_tail(2, 2)` returns `true` even though no body segment other than
the current last segment equals `(2, 2)` — the claimed equivalence fails. -/
theorem overlap_tail_len1_cex :
    ((Snake.new 2 2).overlap_tail 2 2 = true ↔
      ∃ b ∈ (Snake.new 2 2).body.dropLast, b.x = 2 ∧ b.y = 2) ↔ False := by
  decide

/-- C1 (amended): for snakes of length at least 2, `overlap_tail(x, y)`
returns `true` iff `(x, y)` equals some body segment other than the current
last segment; for a length-1 snake the loop's break counter never fires, so
the single segment — which is the true tail — is itself scanned and reported. -/
theorem overlap_tail_spec (s : Snake) (x y : Int) :
    s.overlap_tail x y = true ↔
      (∃ b ∈ s.body.dropLast, b.x = x ∧ b.y = y) ∨
        (s.body.length = 1 ∧ ∃ b ∈ s.body, b.x = x ∧ b.y = y) :=
  overlap_tail_char s x y

/-- C2 (counterexample): with a 2-segment snake at `(3,3), (3,4)` and the
generator drawing the interior cell `(3, 4)`, `add_food` terminates at once
and places the food exactly on the snake's last body segment. -/
theorem add_food_on_tail_cex :
    Game.add_food
        (Game.mk (Snake.mk Direction.Down [Block.mk 3 3, Block.mk 3 4] none)
          false 10 10 50 50 false 0 0) [(3, 4)] =
      some (Game.mk (Snake.mk Direction.Down [Block.mk 3 3, Block.mk 3 4] none)
        true 3 4 50 50 false 0 0) ∧
    Block.mk 3 4 ∈ [Block.mk 3 3, Block.mk 3 4] := by
  decide

/-- C2 (amended): whenever `add_food` terminates on in-range generator draws,
the food lies strictly inside the interior bounds, `food_exists` is set, and
the food fails `overlap_tail` — so it overlaps no body segment other than
possibly the current last segment, which `overlap_tail` does not scan for
snakes of length at least 2. -/
theorem add_food_spec (g g' : Game) (samples : List (Int × Int))
    (hs : ∀ p ∈ samples, 1 ≤ p.1 ∧ p.1 ≤ g.width - 2 ∧
      1 ≤ p.2 ∧ p.2 ≤ g.height - 2)
    (h : g.add_food samples = some g') :
    (1 ≤ g'.food_x ∧ g'.food_x ≤ g.width - 2 ∧
      1 ≤ g'.food_y ∧ g'.food_y ≤ g.height - 2) ∧
    g.snake.overlap_tail g'.food_x g'.food_y = false ∧
    (∀ b ∈ g.snake.body.dropLast, ¬(b.x = g'.food_x ∧ b.y = g'.food_y)) ∧
    g'.food_exists = true := by
  unfold Game.add_food at h
  cases hf : samples.find? (fun p => ! g.snake.overlap_tail p.1 p.2) with
  | none =>
    rw [hf] at h
    cases h
  | some p =>
    obtain ⟨nx, ny⟩ := p
    rw [hf] at h
    cases h
    have hmem := List.mem_of_find?_eq_some hf
    have hacc := List.find?_some hf
    simp only [Bool.not_eq_true'] at hacc
    refine ⟨?_, hacc, ?_, rfl⟩
    · exact hs (nx, ny) hmem
    · intro b hb hxy
      have : g.snake.overlap_tail nx ny = true :=
        (overlap_tail_char g.snake nx ny).mpr (Or.inl ⟨b, hb, hxy.1, hxy.2⟩)
      rw [hacc] at this
      cases this

/-- C2 (witness for `add_food_spec`) at `Game::new(50, 50)` with the single
draw `(10, 10)`. -/
theorem add_food_spec_witness :
    (Game.new 50 50).add_food [(10, 10)] =
        some (Game.mk (Snake.new 2 2) true 10 10 50 50 false 0 0) ∧
      (Snake.new 2 2).overlap_tail 10 10 = false := by
  have h := add_food_spec (Game.new 50 50)
    (Game.mk (Snake.new 2 2) true 10 10 50 50 false 0 0) [(10, 10)]
    (by decide) (by decide)
  exact ⟨by decide, h.2.1⟩

/-- C3: whenever the next head position computed by `next_head` lies on or
outside the 1-cell border, `check_if_snake_alive` returns `false`. -/
theorem check_if_snake_alive_border (g : Game) (dir : Option Direction)
    (nx ny : Int) (h : g.snake.next_head dir = some (nx, ny))
    (hb : nx ≤ 0 ∨ ny ≤ 0 ∨ nx ≥ g.width - 1 ∨ ny ≥ g.height - 1) :
    g.check_if_snake_alive dir = some false := by
  simp only [Game.check_if_snake_alive, h]
  by_cases hov : g.snake.overlap_tail nx ny
  · rw [if_pos hov]
  · rw [if_neg hov]
    have : (decide (nx > 0) && decide (ny > 0) &&
        decide (nx < g.width - 1) && decide (ny < g.height - 1)) = false := by
      rcases hb with hb | hb | hb | hb <;>
        simp [decide_eq_false_iff_not] <;> omega
    rw [this]

/-- C3 (witness for `check_if_snake_alive_border`): a snake at `(1, 2)`
heading `Left` on the 50×50 board dies at the border. -/
theorem check_if_snake_alive_border_witness :
    ({ Game.new 50 50 with
        snake := Snake.mk Direction.Left [Block.mk 1 2] none } : Game
      ).check_if_snake_alive none = some false := by
  exact check_if_snake_alive_border _ none 0 2 (by decide) (Or.inl (by norm_num))

/-- C4: `update(delta_time)` adds `delta_time` to both timers; when the game
is over it restarts exactly when the accumulated `waiting_time` exceeds
`RESTART_TIME` and otherwise only accumulates; when the game is running it
spawns food exactly when `food_exists` is false, and advances the snake via
`update_snake(None)` exactly when the accumulated `waiting_time` exceeds
`MOVING_PERIOD`. (`f64` time is modelled by `ℚ`.) -/
theorem update_spec (g : Game) (delta_time : ℚ) (samples : List (Int × Int)) :
    (g.game_over = true → g.waiting_time + delta_time > RESTART_TIME →
      g.update delta_time samples = some g.restart) ∧
    (g.game_over = true → ¬(g.waiting_time + delta_time > RESTART_TIME) →
      g.update delta_time samples = some { g with
        waiting_time := g.waiting_time + delta_time
        total_time := g.total_time + delta_time }) ∧
    (g.game_over = false → g.food_exists = true →
      g.waiting_time + delta_time > MOVING_PERIOD →
      g.update delta_time samples = Game.update_snake { g with
        waiting_time := g.waiting_time + delta_time
        total_time := g.total_time + delta_time } none) ∧
    (g.game_over = false → g.food_exists = true →
      ¬(g.waiting_time + delta_time > MOVING_PERIOD) →
      g.update delta_time samples = some { g with
        waiting_time := g.waiting_time + delta_time
        total_time := g.total_time + delta_time }) ∧
    (g.game_over = false → g.food_exists = false →
      ∀ g2 : Game, Game.add_food { g with
          waiting_time := g.waiting_time + delta_time
          total_time := g.total_time + delta_time } samples = some g2 →
        g2.food_exists = true ∧
        g2.waiting_time = g.waiting_time + delta_time ∧
        g.update delta_time samples =
          (if g2.waiting_time > MOVING_PERIOD then g2.update_snake none
           else some g2)) ∧
    (g.game_over = false → g.food_exists = false →
      Game.add_food { g with
          waiting_time := g.waiting_time + delta_time
          total_time := g.total_time + delta_time } samples = none →
      g.update delta_time samples = none) := by
  refine ⟨?_, ?_, ?_, ?_, ?_, ?_⟩
  · intro hgo hrt
    simp only [Game.update, hgo, if_true, if_pos hrt]
    rfl
  · intro hgo hrt
    simp only [Game.update, hgo, if_true, if_neg hrt]
  · intro hgo hfe hmp
    simp only [Game.update, hgo, hfe, Bool.not_true, Bool.false_eq_true,
      if_false, if_pos hmp]
  · intro hgo hfe hmp
    simp only [Game.update, hgo, hfe, Bool.not_true, Bool.false_eq_true,
      if_false, if_neg hmp]
  · intro hgo hfe g2 hg2
    obtain ⟨hf2, hw2, _⟩ := add_food_fields _ _ _ hg2
    rw [hgo, hfe] at hg2
    refine ⟨hf2, hw2, ?_⟩
    simp only [Game.update, hgo, hfe, Bool.not_false, Bool.false_eq_true,
      if_false, if_true, hg2]
  · intro hgo hfe hnone
    rw [hgo, hfe] at hnone
    simp only [Game.update, hgo, hfe, Bool.not_false, Bool.false_eq_true,
      if_false, if_true, hnone]

/-- C5: when the head sits on existing food, `check_eating` clears
`food_exists` and re-appends the cached popped tail, growing the body by
exactly one segment; otherwise it leaves the game unchanged. -/
theorem check_eating_spec (g : Game) :
    (∀ t : Block, g.snake.head_position = some (g.food_x, g.food_y) →
      g.food_exists = true → g.snake.tail = some t →
      g.check_eating = some { g with
        food_exists := false
        snake := { g.snake with body := g.snake.body ++ [t] } } ∧
      (g.snake.body ++ [t]).length = g.snake.body.length + 1) ∧
    (∀ hx hy : Int, g.snake.head_position = some (hx, hy) →
      (g.food_exists = true ∧ g.food_x = hx ∧ g.food_y = hy → False) →
      g.check_eating = some g) := by
  constructor
  · intro t hh hf ht
    constructor
    · simp only [Game.check_eating, hh, hf, Snake.restore_tail, ht, true_and,
        and_true, and_self, if_true]
    · simp
  · intro hx hy hh hne
    simp only [Game.check_eating, hh]
    rw [if_neg hne]

/-- C6 (counterexample): in a game-over state heading `Right`, pressing the
up arrow leaves the state unchanged although `Up` is not the opposite of the
heading — and it is not forwarded to `update_snake`, which would have moved
the snake. -/
theorem key_pressed_gameover_cex :
    ({ Game.new 50 50 with game_over := true } : Game).key_pressed Key.Up =
        some { Game.new 50 50 with game_over := true } ∧
      Direction.Up ≠ (({ Game.new 50 50 with game_over := true } : Game
        ).snake.head_direction).opposite ∧
      ({ Game.new 50 50 with game_over := true } : Game).update_snake
          (some Direction.Up) ≠
        some { Game.new 50 50 with game_over := true } := by
  decide

/-- C6 (amended): while the game is running, an arrow key is rejected (the
whole state left unchanged) exactly when its direction is the opposite of
the current heading, and every other key is forwarded to `update_snake`
immediately; when the game is over, every key press is ignored. -/
theorem key_pressed_spec (g : Game) (k : Key) :
    (g.game_over = true → g.key_pressed k = some g) ∧
    (g.game_over = false →
      (∀ d : Direction, keyDirection k = some d →
        (d = g.snake.head_direction.opposite → g.key_pressed k = some g) ∧
        (d ≠ g.snake.head_direction.opposite →
          g.key_pressed k = g.update_snake (some d))) ∧
      (keyDirection k = none → g.key_pressed k = g.update_snake none)) := by
  refine ⟨?_, ?_⟩
  · intro hgo
    simp only [Game.key_pressed, hgo, if_true]
  · intro hgo
    constructor
    · intro d hd
      constructor
      · intro hopp
        simp only [Game.key_pressed, hgo, Bool.false_eq_true, if_false, hd]
        rw [if_pos hopp]
      · intro hopp
        simp only [Game.key_pressed, hgo, Bool.false_eq_true, if_false, hd]
        rw [if_neg hopp]
    · intro hd
      simp only [Game.key_pressed, hgo, Bool.false_eq_true, if_false, hd]

/-- C7: from the initial `Game::new(50, 50)` state — a one-segment snake at
`(2, 2)` heading `Right` — four `update_snake(None)` ticks leave the head at
`(6, 2)`, the body at length 1, and the game running. -/
theorem four_tick_scenario :
    (((((Game.new 50 50).update_snake none).bind
            (fun g => g.update_snake none)).bind
          (fun g => g.update_snake none)).bind
        (fun g => g.update_snake none)).map
        (fun g => (g.snake.head_position, g.snake.body.length, g.game_over)) =
      some (some ((6 : Int), (2 : Int)), 1, false) := by
  decide

/-- C8: the body is nonempty in every reachable state — `Snake::new` builds a
one-segment body, `move_forward` succeeds on a nonempty body and preserves
its length, `restore_tail` appends a segment — so `head_position` (the
`unwrap` in the source) succeeds on every nonempty body. -/
theorem snake_body_nonempty :
    (∀ x y : Int, (Snake.new x y).body.length = 1) ∧
    (∀ (s : Snake) (dir : Option Direction), s.body ≠ [] →
      ∃ s' : Snake, s.move_forward dir = some s' ∧
        s'.body.length = s.body.length ∧ s'.body ≠ []) ∧
    (∀ s s' : Snake, s.restore_tail = some s' →
      s'.body.length = s.body.length + 1 ∧ s'.body ≠ []) ∧
    (∀ s : Snake, s.body ≠ [] → ∃ p, s.head_position = some p) := by
  refine ⟨?_, ?_, ?_, ?_⟩
  · intro x y
    simp [Snake.new]
  · intro s dir hne
    cases hb : s.body with
    | nil => exact absurd hb hne
    | cons b rest =>
      obtain ⟨s', h1, h2, h3, _⟩ := move_forward_some s dir b rest hb
      rw [hb] at h2
      exact ⟨s', h1, h2, h3⟩
  · intro s s' h
    unfold Snake.restore_tail at h
    split at h
    · cases h
    next t htl =>
      cases h
      constructor
      · simp
      · simp
  · intro s hne
    cases hb : s.body with
    | nil => exact absurd hb hne
    | cons b rest =>
      refine ⟨(b.x, b.y), ?_⟩
      unfold Snake.head_position
      rw [hb]

/-- C9: `next_head(Some(d))` displaces the head by exactly `d`'s unit vector
(Up `(0,-1)`, Down `(0,+1)`, Left `(-1,0)`, Right `(+1,0)`), and
`next_head(None)` does the same with the stored direction; being a pure
function of the snake, it mutates nothing. -/
theorem next_head_unit_vector (s : Snake) (hx hy : Int)
    (h : s.head_position = some (hx, hy)) :
    s.next_head (some Direction.Up) = some (hx, hy - 1) ∧
    s.next_head (some Direction.Down) = some (hx, hy + 1) ∧
    s.next_head (some Direction.Left) = some (hx - 1, hy) ∧
    s.next_head (some Direction.Right) = some (hx + 1, hy) ∧
    s.next_head none = s.next_head (some s.direction) := by
  refine ⟨?_, ?_, ?_, ?_, ?_⟩ <;> simp [Snake.next_head, h]

/-- C9 (witness for `next_head_unit_vector`) at `Snake::new(2, 2)`. -/
theorem next_head_unit_vector_witness :
    (Snake.new 2 2).next_head (some Direction.Up) = some (2, 2 - 1) ∧
    (Snake.new 2 2).next_head (some Direction.Down) = some (2, 2 + 1) ∧
    (Snake.new 2 2).next_head (some Direction.Left) = some (2 - 1, 2) ∧
    (Snake.new 2 2).next_head (some Direction.Right) = some (2 + 1, 2) ∧
    (Snake.new 2 2).next_head none =
      (Snake.new 2 2).next_head (some (Snake.new 2 2).direction) := by
  exact next_head_unit_vector (Snake.new 2 2) 2 2 rfl

/-- C10: while the game is running, any key that is not a rejected opposite
arrow — non-arrow keys map to `None` — makes `key_pressed` invoke
`update_snake` at once, with no `MOVING_PERIOD` gating: the result has
`waiting_time = 0` and either the snake advanced one cell (head at the
`next_head` cell, game still running) or `game_over` was set. -/
theorem key_pressed_advances (g : Game) (k : Key)
    (hgo : g.game_over = false)
    (hnd : ∀ d : Direction, keyDirection k = some d →
      d ≠ g.snake.head_direction.opposite) :
    g.key_pressed k = g.update_snake (keyDirection k) ∧
    (∀ g' : Game, g.key_pressed k = some g' →
      g'.waiting_time = 0 ∧
      ((g.check_if_snake_alive (keyDirection k) = some true ∧
          g'.snake.head_position = g.snake.next_head (keyDirection k) ∧
          g'.game_over = false) ∨
        (g.check_if_snake_alive (keyDirection k) = some false ∧
          g'.game_over = true))) := by
  have hkey : g.key_pressed k = g.update_snake (keyDirection k) := by
    cases hk : keyDirection k with
    | none => simp only [Game.key_pressed, hgo, Bool.false_eq_true, if_false, hk]
    | some d =>
      have hne := hnd d hk
      simp only [Game.key_pressed, hgo, Bool.false_eq_true, if_false, hk]
      rw [if_neg hne]
  refine ⟨hkey, ?_⟩
  intro g' hg'
  rw [hkey] at hg'
  unfold Game.update_snake at hg'
  split at hg'
  · cases hg'
  next halive =>
    have hbody : ∃ b rest, g.snake.body = b :: rest := by
      cases hb : g.snake.body with
      | nil =>
        exfalso
        unfold Game.check_if_snake_alive Snake.next_head
          Snake.head_position at halive
        rw [hb] at halive
        simp at halive
      | cons b rest => exact ⟨b, rest, rfl⟩
    obtain ⟨b, rest, hb⟩ := hbody
    obtain ⟨s1, hmf, _, _, hhead⟩ :=
      move_forward_some g.snake (keyDirection k) b rest hb
    rw [hmf] at hg'
    simp only [Option.some.injEq] at hg'
    cases hce : Game.check_eating { g with snake := s1 } with
    | none =>
      rw [hce] at hg'
      simp at hg'
    | some g1 =>
      rw [hce] at hg'
      simp only [Option.some.injEq] at hg'
      subst hg'
      have hpres := check_eating_preserves _ _ hce
      exact ⟨rfl, Or.inl ⟨halive, hpres.1.trans hhead, hpres.2.1.trans hgo⟩⟩
  next halive =>
    cases hg'
    exact ⟨rfl, Or.inr ⟨halive, rfl⟩⟩

/-- C10 (witness for `key_pressed_advances`): pressing `Up` in the initial
state forwards the direction straight to `update_snake`. -/
theorem key_pressed_advances_witness :
    (Game.new 50 50).key_pressed Key.Up =
      (Game.new 50 50).update_snake (some Direction.Up) := by
  exact (key_pressed_advances (Game.new 50 50) Key.Up rfl
    (by intro d hd; simp [keyDirection] at hd; subst hd; decide)).1

end RsSnake
